import Mathlib

/-!
Verification development for `src/fake_data_generator.py`, a CLI tool that
maps human-friendly field names to generator functions of a locale-bound
fake-data provider, assembles rows, and serializes them to CSV or JSON.

The provider (the third-party `Faker` object) is modelled abstractly: it
exposes a set of capability names (`has`, modelling Python `hasattr`) and a
deterministic sampling function from capability name and generator state to a
value (`sample`).  Each capability invocation advances the generator state by
one; concrete generated values, call parameters (e.g. `minimum_age=18`) and
string post-processing (e.g. `.isoformat()`) are abstracted into `sample`.
Python `AttributeError` on a missing attribute is modelled as `Except.error ()`.
-/

set_option autoImplicit false

namespace FakeData

/-- A generated cell value: the source produces strings, numbers, or `None`. -/
inductive Value where
  | vstr : String → Value
  | vnum : Int → Value
  | vnull : Value
deriving DecidableEq

/-- A record is a Python dict from field name to value, kept as an association
list in insertion order with unique keys (maintained by `dictInsert`). -/
abbrev Record := List (String × Value)

/-- Abstract model of a seeded `Faker` instance: which attribute names it
exposes, and what value the capability named `c` produces at generator
state `st`. -/
structure Provider where
  has : String → Bool
  sample : String → Nat → Value

/-- Invoking a provider capability returns its sampled value and advances the
pseudo-random generator state. -/
def invoke (p : Provider) (cap : String) (st : Nat) : Value × Nat :=
  (p.sample cap st, st + 1)

/-- A registered generator: from a generator state, either a value and the new
state, or a raised exception (`AttributeError` on a missing capability). -/
abbrev Gen := Nat → Except Unit (Value × Nat)

/-- A registry entry whose attribute was resolved when the dict literal was
built (e.g. `"nome": fake.name`): invocation always succeeds. -/
def directGen (p : Provider) (cap : String) : Gen :=
  fun st => .ok (invoke p cap st)

/-- A registry entry whose attribute access happens inside a lambda
(e.g. `"cpf": lambda: getattr(fake, "cpf")()`): invocation raises when the
provider lacks the capability. -/
def deferredGen (p : Provider) (cap : String) : Gen :=
  fun st => if p.has cap then .ok (invoke p cap st) else .error ()

/-- `"celular"`: `fake.cellphone_number() if hasattr(fake, "cellphone_number")
else fake.phone_number()`. -/
def celularGen (p : Provider) : Gen :=
  fun st =>
    if p.has "cellphone_number" then .ok (invoke p "cellphone_number" st)
    else deferredGen p "phone_number" st

/-- `"bairro": getattr(fake, "bairro", lambda: fake.secondary_address())` —
the fallback choice happens when the dict literal is built. -/
def bairroGen (p : Provider) : Gen :=
  if p.has "bairro" then directGen p "bairro" else deferredGen p "secondary_address"

/-- Provider attributes read directly while the registry dict literal is being
built (`fake.name`, `fake.email`, ...): if one were missing, construction
itself would raise. -/
def directCaps : List String :=
  ["name", "first_name", "last_name", "email", "user_name", "password",
   "uuid4", "street_address", "city", "state", "postcode", "country",
   "company", "job", "url", "domain_name", "ipv4", "currency_code",
   "credit_card_number", "sentence"]

/-- The registry dict literal of `get_field_generators`, in source order. -/
def registryList (p : Provider) : List (String × Gen) :=
  [
      ("nome", directGen p "name"),
      ("primeiro_nome", directGen p "first_name"),
      ("sobrenome", directGen p "last_name"),
      ("email", directGen p "email"),
      ("usuario", directGen p "user_name"),
      ("senha", directGen p "password"),
      ("data_nascimento", deferredGen p "date_of_birth"),
      ("cpf", deferredGen p "cpf"),
      ("cnpj", deferredGen p "cnpj"),
      ("rg", deferredGen p "rg"),
      ("telefone", deferredGen p "phone_number"),
      ("celular", celularGen p),
      ("uuid", directGen p "uuid4"),
      ("endereco", directGen p "street_address"),
      ("bairro", bairroGen p),
      ("cidade", directGen p "city"),
      ("estado", directGen p "state"),
      ("cep", directGen p "postcode"),
      ("pais", directGen p "country"),
      ("empresa", directGen p "company"),
      ("cargo", directGen p "job"),
      ("cnpj_empresa", deferredGen p "cnpj"),
      ("url", directGen p "url"),
      ("dominio", directGen p "domain_name"),
      ("ip", directGen p "ipv4"),
      ("preco", deferredGen p "pyfloat"),
      ("moeda", directGen p "currency_code"),
      ("cartao_credito", directGen p "credit_card_number"),
      ("data", deferredGen p "date"),
      ("hora", deferredGen p "time"),
      ("timestamp", deferredGen p "date_time_between"),
      ("frase", directGen p "sentence"),
      ("texto", deferredGen p "text")]

/-- `get_field_generators(fake)`: building the dict evaluates the direct
attribute accesses (`fake.name`, ..., modelled by the `directCaps`
availability check, since a missing one would raise `AttributeError` right
there) and the `getattr(..., default)` for `"bairro"`; deferred `lambda`
bodies run only when the generator is invoked. -/
def get_field_generators (p : Provider) : Except Unit (List (String × Gen)) :=
  if directCaps.all p.has then .ok (registryList p) else .error ()

/-- The fixed key set of the registry dict, in source order. -/
def registryKeys : List String :=
  ["nome", "primeiro_nome", "sobrenome", "email", "usuario", "senha",
   "data_nascimento", "cpf", "cnpj", "rg", "telefone", "celular", "uuid",
   "endereco", "bairro", "cidade", "estado", "cep", "pais", "empresa",
   "cargo", "cnpj_empresa", "url", "dominio", "ip", "preco", "moeda",
   "cartao_credito", "data", "hora", "timestamp", "frase", "texto"]

/-- Python `str.strip()`: drop leading and trailing whitespace.  (Defined by
structural recursion over the character list so that it computes by
reduction; `String.trim` in the library is extensionally the same but is
defined by well-founded recursion on byte positions.) -/
def pyStrip (s : String) : String :=
  String.mk (((s.data.dropWhile Char.isWhitespace).reverse.dropWhile
    Char.isWhitespace).reverse)

/-- `generators.get(f)`. -/
def lookupGen (gens : List (String × Gen)) (f : String) : Option Gen :=
  (gens.find? (fun kv => kv.1 == f)).map Prod.snd

/-- Python dict lookup on a `Record`. -/
def dictGet (r : Record) (k : String) : Option Value :=
  (r.find? (fun kv => kv.1 == k)).map Prod.snd

/-- Python dict assignment `row[k] = v`: update in place when the key exists
(keeping its position), otherwise append. -/
def dictInsert (r : Record) (k : String) (v : Value) : Record :=
  if r.any (fun kv => kv.1 == k) then
    r.map (fun kv => if kv.1 == k then (k, v) else kv)
  else r ++ [(k, v)]

/-- The body of `build_row`'s loop: the record accumulated so far, the fields
still to process, and the generator state. -/
def buildRowAux (p : Provider) (gens : List (String × Gen)) :
    List String → Record → Nat → Except Unit (Record × Nat)
  | [], row, st => .ok (row, st)
  | field :: rest, row, st =>
    match lookupGen gens (pyStrip field) with
    | none =>
      if p.has (pyStrip field) then
        buildRowAux p gens rest
          (dictInsert row (pyStrip field) (invoke p (pyStrip field) st).1)
          (invoke p (pyStrip field) st).2
      else
        buildRowAux p gens rest (dictInsert row (pyStrip field) Value.vnull) st
    | some gen =>
      match gen st with
      | .error e => .error e
      | .ok (val, st') => buildRowAux p gens rest (dictInsert row (pyStrip field) val) st'

/-- `build_row(fake, schema)`: rebuild the registry, then resolve each field
of the schema in order into a fresh dict. -/
def build_row (p : Provider) (schema : List String) (st : Nat) :
    Except Unit (Record × Nat) :=
  match get_field_generators p with
  | .error e => .error e
  | .ok gens => buildRowAux p gens schema [] st

/-- The resolution of one schema field (the loop body of `build_row`, without
the dict assignment): registry hit, else direct provider capability, else
null. -/
def resolveField (p : Provider) (gens : List (String × Gen)) (field : String)
    (st : Nat) : Except Unit (Value × Nat) :=
  match lookupGen gens (pyStrip field) with
  | none =>
    if p.has (pyStrip field) then .ok (invoke p (pyStrip field) st)
    else .ok (Value.vnull, st)
  | some gen => gen st

/-- The sequence of (trimmed name, resolved value) pairs a row build produces,
with the generator state threaded left to right. -/
def rowPairs (p : Provider) (gens : List (String × Gen)) :
    List String → Nat → Except Unit (List (String × Value) × Nat)
  | [], st => .ok ([], st)
  | field :: rest, st =>
    match resolveField p gens field st with
    | .error e => .error e
    | .ok (val, st') =>
      match rowPairs p gens rest st' with
      | .error e => .error e
      | .ok (ps, st'') => .ok (((pyStrip field), val) :: ps, st'')

/-- `[build_row(fake, schema) for _ in range(count)]` for a non-negative
count: rows are generated strictly sequentially, each starting from the state
the previous row left behind. -/
def build_dataset (p : Provider) (schema : List String) (st : Nat) :
    Nat → Except Unit (List Record × Nat)
  | 0 => .ok ([], st)
  | n + 1 =>
    match build_row p schema st with
    | .error e => .error e
    | .ok (r, st') =>
      match build_dataset p schema st' n with
      | .error e => .error e
      | .ok (rs, st'') => .ok (r :: rs, st'')

/-- The value found for key `k` at the *last* pair of `ps` carrying `k`, if
any: the value a sequence of dict assignments leaves behind. -/
def lastLookup (ps : List (String × Value)) (k : String) : Option Value :=
  match ps with
  | [] => none
  | kv :: rest =>
    match lastLookup rest k with
    | some v => some v
    | none => if kv.1 = k then some kv.2 else none

theorem find?_map_hit (r : Record) (k : String) (v : Value)
    (h : r.any (fun kv => kv.1 == k) = true) :
    (r.map (fun kv => if kv.1 == k then (k, v) else kv)).find?
      (fun kv => kv.1 == k) = some (k, v) := by
  induction r with
  | nil => simp at h
  | cons hd tl ih =>
    by_cases hhd : hd.1 = k
    · simp [hhd]
    · have h' : tl.any (fun kv => kv.1 == k) = true := by simpa [hhd] using h
      simpa [hhd] using ih h'

theorem find?_map_miss (r : Record) (k k' : String) (v : Value) (hne : k' ≠ k) :
    (r.map (fun kv => if kv.1 == k then (k, v) else kv)).find?
      (fun kv => kv.1 == k') = r.find? (fun kv => kv.1 == k') := by
  induction r with
  | nil => rfl
  | cons hd tl ih =>
    by_cases hhd : hd.1 = k
    · have hL : (((k, v) : String × Value).1 == k') = false := by
        simp [Ne.symm hne]
      have hR : (hd.1 == k') = false := by simp [hhd, Ne.symm hne]
      rw [List.map_cons, show (if hd.1 == k then (k, v) else hd) = (k, v) by
        simp [hhd]]
      simp only [List.find?_cons, hL, hR]
      exact ih
    · rw [List.map_cons, show (if hd.1 == k then (k, v) else hd) = hd by
        simp [hhd]]
      simp only [List.find?_cons]
      cases h1 : (hd.1 == k') with
      | true => rfl
      | false => exact ih

theorem find?_not_found (r : Record) (k : String)
    (h : r.any (fun kv => kv.1 == k) = false) :
    r.find? (fun kv => kv.1 == k) = none := by
  rw [List.find?_eq_none]
  intro x hx hbeq
  have hany : r.any (fun kv => kv.1 == k) = true := by
    rw [List.any_eq_true]
    exact ⟨x, hx, hbeq⟩
  rw [h] at hany
  cases hany

/-- Python dict semantics of `row[k] = v`: the new binding shadows any old
one at `k` and leaves every other key untouched. -/
theorem dictGet_insert (r : Record) (k k' : String) (v : Value) :
    dictGet (dictInsert r k v) k' = if k' = k then some v else dictGet r k' := by
  unfold dictInsert dictGet
  by_cases hmem : r.any (fun kv => kv.1 == k) = true
  · rw [if_pos hmem]
    by_cases hk : k' = k
    · subst hk
      rw [find?_map_hit r k' v hmem, if_pos rfl]
      rfl
    · rw [find?_map_miss r k k' v hk, if_neg hk]
  · have hmem' : r.any (fun kv => kv.1 == k) = false := by
      cases h : r.any (fun kv => kv.1 == k)
      · rfl
      · exact absurd h hmem
    rw [if_neg hmem, List.find?_append]
    by_cases hk : k' = k
    · subst hk
      rw [find?_not_found r k' hmem', if_pos rfl]
      simp
    · rw [if_neg hk]
      have h2 : (((k, v) : String × Value).1 == k') = false := by
        simp [Ne.symm hk]
      have h3 : List.find? (fun kv => kv.1 == k') [(k, v)] = none := by
        simp only [List.find?_cons, h2]
        rfl
      rw [h3]
      cases hfound : r.find? (fun kv => kv.1 == k') <;> simp [hfound]

theorem keys_map_update (r : Record) (k : String) (v : Value) :
    (r.map (fun kv => if kv.1 == k then (k, v) else kv)).map Prod.fst =
      r.map Prod.fst := by
  induction r with
  | nil => rfl
  | cons hd tl ih =>
    by_cases hhd : hd.1 = k
    · simp only [List.map_cons, ih]
      rw [show (if hd.1 == k then (k, v) else hd) = (k, v) by simp [hhd]]
      rw [show ((k, v) : String × Value).1 = hd.1 from hhd.symm]
    · simp only [List.map_cons, ih]
      rw [show (if hd.1 == k then (k, v) else hd) = hd by simp [hhd]]

theorem any_key_eq_mem (r : Record) (k : String) :
    r.any (fun kv => kv.1 == k) = true ↔ k ∈ r.map Prod.fst := by
  simp only [List.any_eq_true, beq_iff_eq, List.mem_map]

/-- Dict assignment keeps the existing key order and appends genuinely new
keys at the end. -/
theorem keys_insert (r : Record) (k : String) (v : Value) :
    (dictInsert r k v).map Prod.fst =
      if k ∈ r.map Prod.fst then r.map Prod.fst else r.map Prod.fst ++ [k] := by
  unfold dictInsert
  by_cases hmem : r.any (fun kv => kv.1 == k) = true
  · rw [if_pos hmem, keys_map_update, if_pos ((any_key_eq_mem r k).mp hmem)]
  · have hnot : ¬ k ∈ r.map Prod.fst := fun hk =>
      hmem ((any_key_eq_mem r k).mpr hk)
    rw [if_neg hmem, List.map_append, if_neg hnot]
    rfl

theorem mem_keys_insert (r : Record) (k k' : String) (v : Value) :
    k' ∈ (dictInsert r k v).map Prod.fst ↔ k' = k ∨ k' ∈ r.map Prod.fst := by
  rw [keys_insert]
  by_cases hmem : k ∈ r.map Prod.fst
  · simp only [hmem, if_true]
    constructor
    · exact Or.inr
    · rintro (rfl | h)
      · exact hmem
      · exact h
  · simp only [hmem, if_false, List.mem_append, List.mem_singleton]
    tauto

theorem dictGet_foldl (ps : List (String × Value)) (r : Record) (k : String) :
    dictGet (ps.foldl (fun acc kv => dictInsert acc kv.1 kv.2) r) k =
      match lastLookup ps k with
      | some v => some v
      | none => dictGet r k := by
  induction ps generalizing r with
  | nil => simp [lastLookup]
  | cons kv ps ih =>
    simp only [List.foldl_cons, lastLookup]
    rw [ih]
    cases hlast : lastLookup ps k with
    | some v => simp
    | none =>
      simp only [dictGet_insert]
      by_cases hk : k = kv.1
      · simp [hk]
      · rw [if_neg hk, if_neg (fun h : kv.1 = k => hk h.symm)]

theorem mem_keys_foldl (ps : List (String × Value)) (r : Record) (k : String) :
    k ∈ (ps.foldl (fun acc kv => dictInsert acc kv.1 kv.2) r).map Prod.fst ↔
      k ∈ ps.map Prod.fst ∨ k ∈ r.map Prod.fst := by
  induction ps generalizing r with
  | nil => simp
  | cons kv ps ih =>
    simp only [List.foldl_cons, List.map_cons, List.mem_cons]
    rw [ih, mem_keys_insert]
    tauto

/-- First-occurrence deduplication: the key order a sequence of Python dict
assignments produces. -/
def dedupFirst (l : List String) : List String :=
  l.foldl (fun acc x => if x ∈ acc then acc else acc ++ [x]) []

theorem keys_foldl_order (ps : List (String × Value)) (r : Record) :
    (ps.foldl (fun acc kv => dictInsert acc kv.1 kv.2) r).map Prod.fst =
      (ps.map Prod.fst).foldl
        (fun acc x => if x ∈ acc then acc else acc ++ [x]) (r.map Prod.fst) := by
  induction ps generalizing r with
  | nil => rfl
  | cons kv ps ih =>
    simp only [List.foldl_cons, List.map_cons]
    rw [ih, keys_insert]

/-- Refinement: the imperative loop of `build_row` equals folding dict
assignments over the sequentially resolved (trimmed name, value) pairs. -/
theorem buildRowAux_eq_rowPairs (p : Provider) (gens : List (String × Gen))
    (schema : List String) (row : Record) (st : Nat) :
    buildRowAux p gens schema row st =
      match rowPairs p gens schema st with
      | .error e => .error e
      | .ok (ps, st') =>
        .ok (ps.foldl (fun acc kv => dictInsert acc kv.1 kv.2) row, st') := by
  induction schema generalizing row st with
  | nil => simp [buildRowAux, rowPairs]
  | cons field rest ih =>
    simp only [buildRowAux, rowPairs, resolveField]
    cases hlg : lookupGen gens (pyStrip field) with
    | none =>
      by_cases hhas : p.has (pyStrip field)
      · simp only [hhas, if_true]
        rw [ih]
        cases hrp : rowPairs p gens rest (invoke p (pyStrip field) st).2 <;> simp [invoke]
      · simp only [hhas, Bool.false_eq_true, if_false]
        rw [ih]
        cases hrp : rowPairs p gens rest st <;> simp
    | some gen =>
      cases hg : gen st with
      | error e => simp [hg]
      | ok vs =>
        obtain ⟨val, st2⟩ := vs
        simp only [hg]
        rw [ih]
        cases hrp : rowPairs p gens rest st2 with
        | error e => simp
        | ok pss =>
          obtain ⟨ps, st3⟩ := pss
          simp

theorem rowPairs_keys (p : Provider) (gens : List (String × Gen))
    (schema : List String) (st : Nat) (ps : List (String × Value)) (st' : Nat)
    (h : rowPairs p gens schema st = .ok (ps, st')) :
    ps.map Prod.fst = schema.map pyStrip := by
  induction schema generalizing st ps st' with
  | nil =>
    simp only [rowPairs] at h
    cases h
    rfl
  | cons field rest ih =>
    simp only [rowPairs] at h
    cases hr : resolveField p gens field st with
    | error e => rw [hr] at h; cases h
    | ok vs =>
      obtain ⟨val, st2⟩ := vs
      rw [hr] at h
      cases hrp : rowPairs p gens rest st2 with
      | error e =>
        simp only [hrp] at h
        exact Except.noConfusion h
      | ok pss =>
        obtain ⟨pss', st3⟩ := pss
        simp only [hrp] at h
        cases h
        simp [ih _ _ _ hrp]

/-! ## Concrete providers used to instantiate the theorems -/

/-- Capabilities of a fully equipped `pt_BR`-style Faker: every attribute the
registry touches is available. -/
def stdCaps : List String :=
  directCaps ++
  ["phone_number", "cellphone_number", "date_of_birth", "pyfloat", "date",
   "time", "date_time_between", "text", "secondary_address", "bairro",
   "cpf", "cnpj", "rg"]

/-- A concrete deterministic provider exposing every standard capability. -/
def pStd : Provider :=
  { has := fun c => stdCaps.contains c,
    sample := fun c st => Value.vstr (c ++ toString st) }

/-- The registry built against a provider (its `.ok` payload). -/
def registryOf (p : Provider) : List (String × Gen) :=
  match get_field_generators p with
  | .ok gens => gens
  | .error _ => []

/-! ## Claims -/

/-- Claim C1: for every provider, schema, starting generator state and
non-negative row count, whenever the dataset assembler produces a dataset it
contains exactly `count` records, and a count of 0 always yields the empty
sequence (never an error). -/
theorem claim_C1_dataset_length (p : Provider) (schema : List String)
    (st : Nat) (count : Nat) (rs : List Record) (st' : Nat)
    (h : build_dataset p schema st count = .ok (rs, st')) :
    rs.length = count ∧ build_dataset p schema st 0 = .ok ([], st) := by
  refine ⟨?_, rfl⟩
  induction count generalizing st rs st' with
  | zero =>
    simp only [build_dataset] at h
    cases h
    rfl
  | succ n ih =>
    simp only [build_dataset] at h
    cases hbr : build_row p schema st with
    | error e =>
      rw [hbr] at h
      exact Except.noConfusion h
    | ok rst =>
      obtain ⟨r, st2⟩ := rst
      rw [hbr] at h
      cases hds : build_dataset p schema st2 n with
      | error e =>
        simp only [hds] at h
        exact Except.noConfusion h
      | ok rsst =>
        obtain ⟨rs2, st3⟩ := rsst
        simp only [hds] at h
        cases h
        simp [ih st2 rs2 st' hds]

/-- Witness for C1 at a concrete provider, schema and count. -/
theorem claim_C1_witness :
    build_dataset pStd ["nome"] 0 2 =
      .ok ([[("nome", Value.vstr "name0")], [("nome", Value.vstr "name1")]], 2) ∧
    ([[("nome", Value.vstr "name0")], [("nome", Value.vstr "name1")]] :
      List Record).length = 2 :=
  ⟨rfl, (claim_C1_dataset_length pStd ["nome"] 0 2 _ 2 rfl).1⟩

/-- Claim C2: the row builder resolves every schema field, left to right, by
`resolveField` — (1) registry hit: invoke the registered generator; (2) else a
provider capability literally named like the trimmed field: invoke it with no
arguments; (3) else null — and stores each resulting value in the record under
the trimmed name (`rowPairs` lists the (trimmed name, value) pairs, and the
record is the fold of dict assignments over them). -/
theorem claim_C2_field_resolution (p : Provider) (gens : List (String × Gen))
    (schema : List String) (field : String) (st : Nat) :
    (build_row p schema st =
      match get_field_generators p with
      | .error e => .error e
      | .ok gens' =>
        match rowPairs p gens' schema st with
        | .error e => .error e
        | .ok (ps, st') =>
          .ok (ps.foldl (fun acc kv => dictInsert acc kv.1 kv.2) [], st')) ∧
    (resolveField p gens field st =
      match lookupGen gens (pyStrip field) with
      | none =>
        if p.has (pyStrip field) then .ok (invoke p (pyStrip field) st)
        else .ok (Value.vnull, st)
      | some gen => gen st) := by
  constructor
  · unfold build_row
    cases get_field_generators p with
    | error e => rfl
    | ok gens' => exact buildRowAux_eq_rowPairs p gens' schema [] st
  · rfl

/-- Claim C3: a record produced by the row builder has exactly the trimmed
schema names as keys (duplicates collapse), each schema occurrence is
independently resolved (one pair per occurrence, in order), and the value
stored under a duplicated name is the one of its last occurrence. -/
theorem claim_C3_record_keys (p : Provider) (gens : List (String × Gen))
    (schema : List String) (st : Nat) (r : Record) (ps : List (String × Value))
    (st' : Nat) (k : String)
    (hg : get_field_generators p = .ok gens)
    (hb : build_row p schema st = .ok (r, st'))
    (hp : rowPairs p gens schema st = .ok (ps, st')) :
    (k ∈ r.map Prod.fst ↔ k ∈ schema.map pyStrip) ∧
    ps.map Prod.fst = schema.map pyStrip ∧
    dictGet r k = lastLookup ps k := by
  have hrw : build_row p schema st =
      .ok (ps.foldl (fun acc kv => dictInsert acc kv.1 kv.2) [], st') := by
    unfold build_row
    rw [hg]
    exact (buildRowAux_eq_rowPairs p gens schema [] st).trans (by rw [hp])
  rw [hb] at hrw
  have hreq : r = ps.foldl (fun acc kv => dictInsert acc kv.1 kv.2) [] := by
    simp only [Except.ok.injEq, Prod.mk.injEq] at hrw
    exact hrw.1
  have hkeys := rowPairs_keys p gens schema st ps st' hp
  refine ⟨?_, hkeys, ?_⟩
  · rw [hreq, ← hkeys]
    have hmem := mem_keys_foldl ps [] k
    simpa using hmem
  · rw [hreq, dictGet_foldl]
    cases hll : lastLookup ps k <;> simp [dictGet]

/-- Witness for C3: a schema with a duplicated name (differing only in
whitespace) and an unknown name. -/
theorem claim_C3_witness :
    (("nome" ∈ ([("nome", Value.vstr "name1"), ("xyz", Value.vnull)] :
        Record).map Prod.fst ↔
      "nome" ∈ ["nome", " nome ", "xyz"].map pyStrip) ∧
    ([("nome", Value.vstr "name0"), ("nome", Value.vstr "name1"),
      ("xyz", Value.vnull)] : List (String × Value)).map Prod.fst =
      ["nome", " nome ", "xyz"].map pyStrip ∧
    dictGet [("nome", Value.vstr "name1"), ("xyz", Value.vnull)] "nome" =
      lastLookup [("nome", Value.vstr "name0"), ("nome", Value.vstr "name1"),
        ("xyz", Value.vnull)] "nome") :=
  claim_C3_record_keys pStd (registryOf pStd) ["nome", " nome ", "xyz"] 0
    [("nome", Value.vstr "name1"), ("xyz", Value.vnull)]
    [("nome", Value.vstr "name0"), ("nome", Value.vstr "name1"),
      ("xyz", Value.vnull)] 2 "nome" rfl rfl rfl

/-- Claim C4: a field that is neither in the registry nor a provider
capability resolves to null and never raises: processing it just continues the
loop with the null binding added, and the record maps the trimmed name to
null. -/
theorem claim_C4_unknown_field_null (p : Provider) (gens : List (String × Gen))
    (f : String) (rest : List String) (row : Record) (st : Nat)
    (hg : get_field_generators p = .ok gens)
    (h1 : lookupGen gens (pyStrip f) = none)
    (h2 : p.has (pyStrip f) = false) :
    build_row p (f :: rest) st =
      buildRowAux p gens rest (dictInsert [] (pyStrip f) Value.vnull) st ∧
    buildRowAux p gens (f :: rest) row st =
      buildRowAux p gens rest (dictInsert row (pyStrip f) Value.vnull) st ∧
    dictGet (dictInsert row (pyStrip f) Value.vnull) (pyStrip f) =
      some Value.vnull := by
  refine ⟨?_, ?_, ?_⟩
  · unfold build_row
    rw [hg]
    simp only [buildRowAux, h1, h2, Bool.false_eq_true, if_false]
  · simp only [buildRowAux, h1, h2, Bool.false_eq_true, if_false]
  · rw [dictGet_insert, if_pos rfl]

/-- Witness for C4: the spec's own scenario `campo_inexistente` against a
fully equipped provider. -/
theorem claim_C4_witness :
    build_row pStd ["campo_inexistente"] 0 =
      buildRowAux pStd (registryOf pStd) []
        (dictInsert [] (pyStrip "campo_inexistente") Value.vnull) 0 ∧
    buildRowAux pStd (registryOf pStd) ["campo_inexistente"]
        [("nome", Value.vstr "x")] 0 =
      buildRowAux pStd (registryOf pStd) []
        (dictInsert [("nome", Value.vstr "x")] (pyStrip "campo_inexistente")
          Value.vnull) 0 ∧
    dictGet (dictInsert [("nome", Value.vstr "x")]
        (pyStrip "campo_inexistente") Value.vnull)
        (pyStrip "campo_inexistente") = some Value.vnull :=
  claim_C4_unknown_field_null pStd (registryOf pStd) "campo_inexistente" []
    [("nome", Value.vstr "x")] 0 rfl rfl rfl

/-- A provider in the style of an `en_US` Faker: all standard capabilities,
but no Brazilian ones (`cpf`, `cnpj`, `rg`, `cellphone_number`, ...). -/
def pEnUS : Provider :=
  { has := fun c => directCaps.contains c || c == "phone_number",
    sample := fun c st => Value.vstr (c ++ toString st) }

/-- Counterexample to claim C5 as stated: for a provider that cannot resolve
"cpf", registry construction succeeds but "cpf" is NOT absent from the
returned mapping — the full fixed key set is present, and the "cpf" entry
holds a generator that fails when invoked. -/
theorem claim_C5_counterexample :
    pEnUS.has "cpf" = false ∧
    get_field_generators pEnUS = .ok (registryOf pEnUS) ∧
    (registryOf pEnUS).map Prod.fst = registryKeys ∧
    (match lookupGen (registryOf pEnUS) "cpf" with
     | some g => g 0
     | none => .ok (Value.vnull, 0)) = .error () :=
  ⟨rfl, rfl, rfl, rfl⟩

/-- Claim C5 (amended): registry construction never fails for a provider
exposing the directly accessed standard capabilities, and the returned
mapping always contains the full fixed set of canonical names; a canonical
name whose capability the provider lacks (here "cpf") is present with a
generator that raises when invoked — not absent — while "celular" falls back
to the phone capability when the cellphone one is unavailable. -/
theorem claim_C5_registry_total (p : Provider) (st : Nat)
    (hd : directCaps.all p.has = true)
    (hcpf : p.has "cpf" = false)
    (hcell : p.has "cellphone_number" = false)
    (hphone : p.has "phone_number" = true) :
    get_field_generators p = .ok (registryOf p) ∧
    (registryOf p).map Prod.fst = registryKeys ∧
    (match lookupGen (registryOf p) "cpf" with
     | some g => g st
     | none => .ok (Value.vnull, st)) = .error () ∧
    (match lookupGen (registryOf p) "celular" with
     | some g => g st
     | none => .ok (Value.vnull, st)) = .ok (invoke p "phone_number" st) := by
  have hg : get_field_generators p = .ok (registryList p) := by
    unfold get_field_generators
    rw [if_pos hd]
  have hro : registryOf p = registryList p := by
    unfold registryOf
    rw [hg]
  refine ⟨by rw [hg, hro], by rw [hro]; rfl, ?_, ?_⟩
  · rw [hro]
    have hl : lookupGen (registryList p) "cpf" = some (deferredGen p "cpf") := rfl
    rw [hl]
    simp [deferredGen, hcpf]
  · rw [hro]
    have hl : lookupGen (registryList p) "celular" = some (celularGen p) := rfl
    rw [hl]
    simp [celularGen, deferredGen, hcell, hphone]

/-- Witness for the amended C5 at the `en_US`-style provider. -/
theorem claim_C5_witness :
    get_field_generators pEnUS = .ok (registryOf pEnUS) ∧
    (registryOf pEnUS).map Prod.fst = registryKeys ∧
    (match lookupGen (registryOf pEnUS) "cpf" with
     | some g => g 7
     | none => .ok (Value.vnull, 7)) = .error () ∧
    (match lookupGen (registryOf pEnUS) "celular" with
     | some g => g 7
     | none => .ok (Value.vnull, 7)) = .ok (invoke pEnUS "phone_number" 7) :=
  claim_C5_registry_total pEnUS 7 rfl rfl rfl rfl

/-! ## CSV serialization: `csv.DictWriter(f, fieldnames=schema)` with the
default dialect (delimiter `,`, quotechar `"`, QUOTE_MINIMAL, line
terminator `\r\n`). -/

/-- QUOTE_MINIMAL: a field is quoted iff it contains the delimiter, the quote
character, or a line-terminator character. -/
def needsQuote (s : String) : Bool :=
  s.data.any (fun c => c == ',' || c == '"' || c == '\r' || c == '\n')

/-- Double every quote character (the escaping used inside a quoted field). -/
def doubleQuotes : List Char → List Char
  | [] => []
  | c :: cs =>
    if c = '"' then '"' :: '"' :: doubleQuotes cs else c :: doubleQuotes cs

def csvQuoteField (s : String) : String :=
  if needsQuote s then String.mk ('"' :: (doubleQuotes s.data ++ ['"'])) else s

/-- One CSV line: fields quoted as needed and joined by commas. -/
def csvLine : List String → String
  | [] => ""
  | [f] => csvQuoteField f
  | f :: fs => csvQuoteField f ++ "," ++ csvLine fs

/-- How the csv writer renders one cell: `None` and a missing key (`restval`)
become the empty field, strings are written as-is, numbers via `str`. -/
def encodeCsvValue : Option Value → String
  | none => ""
  | some Value.vnull => ""
  | some (Value.vstr s) => s
  | some (Value.vnum n) => toString n

/-- `DictWriter.writerow`: raises `ValueError` when the record has a key
outside the field names; otherwise writes the record's values in schema
order followed by the line terminator. -/
def dictWriterRow (schema : List String) (r : Record) : Except Unit String :=
  if r.all (fun kv => schema.contains kv.1) then
    .ok (csvLine (schema.map (fun k => encodeCsvValue (dictGet r k))) ++ "\r\n")
  else .error ()

/-- `writer.writerows(rows)`. -/
def writeRows (schema : List String) : List Record → Except Unit String
  | [] => .ok ""
  | r :: rs =>
    match dictWriterRow schema r with
    | .error e => .error e
    | .ok line =>
      match writeRows schema rs with
      | .error e => .error e
      | .ok body => .ok (line ++ body)

/-- The CSV branch of `main`: `writeheader()` (which is `writerow` of the
field names themselves) followed by `writerows(rows)`. -/
def writeCsv (schema : List String) (rows : List Record) : Except Unit String :=
  match writeRows schema rows with
  | .error e => .error e
  | .ok body => .ok (csvLine schema ++ "\r\n" ++ body)

/-- Concatenation of a list of strings. -/
def strConcat : List String → String
  | [] => ""
  | s :: rest => s ++ strConcat rest

/-! ## JSON serialization: `json.dump(rows, f, ensure_ascii=False, indent=2)`. -/

def hexDigit (n : Nat) : Char :=
  if n < 10 then Char.ofNat (48 + n) else Char.ofNat (87 + n)

/-- How `json.dump` with `ensure_ascii=False` renders one character inside a
string literal: only the quote, the backslash and control characters are
escaped; everything else — including non-ASCII — passes through verbatim. -/
def jsonEscapeChar (c : Char) : String :=
  if c = '"' then "\\\""
  else if c = '\\' then "\\\\"
  else if c.toNat < 32 then
    (if c = '\n' then "\\n"
     else if c = '\r' then "\\r"
     else if c = '\t' then "\\t"
     else if c.toNat = 8 then "\\b"
     else if c.toNat = 12 then "\\f"
     else "\\u00" ++ String.mk [hexDigit (c.toNat / 16), hexDigit (c.toNat % 16)])
  else String.singleton c

def jsonEscape (s : String) : String :=
  strConcat (s.data.map jsonEscapeChar)

/-- A JSON scalar: `None` renders as `null`. -/
def jsonValue : Value → String
  | Value.vnull => "null"
  | Value.vstr s => "\"" ++ jsonEscape s ++ "\""
  | Value.vnum n => toString n

/-- The members of one object, one per line at indent 4, in the record's key
order. -/
def renderMembers : Record → String
  | [] => ""
  | [kv] => "    \"" ++ jsonEscape kv.1 ++ "\": " ++ jsonValue kv.2
  | kv :: rest =>
    "    \"" ++ jsonEscape kv.1 ++ "\": " ++ jsonValue kv.2 ++ ",\n" ++
      renderMembers rest

def renderObj (r : Record) : String :=
  match r with
  | [] => "{}"
  | _ => "\x7b\n" ++ renderMembers r ++ "\n  \x7d"

/-- The array items, one per line at indent 2, in dataset order. -/
def renderRows : List Record → String
  | [] => ""
  | [r] => "  " ++ renderObj r
  | r :: rest => "  " ++ renderObj r ++ ",\n" ++ renderRows rest

/-- The JSON branch of `main`. -/
def writeJson (rows : List Record) : String :=
  match rows with
  | [] => "[]"
  | _ => "[\n" ++ renderRows rows ++ "\n]"

/-! ## The `main` pipeline around the serializers. -/

def splitCommaAux : List Char → List Char → List String
  | [], acc => [String.mk acc.reverse]
  | c :: cs, acc =>
    if c = ',' then String.mk acc.reverse :: splitCommaAux cs []
    else splitCommaAux cs (c :: acc)

/-- Python `s.split(",")`. -/
def pySplitComma (s : String) : List String :=
  splitCommaAux s.data []

/-- `[s.strip() for s in args.schema.split(",") if s.strip()]`. -/
def parseSchemaArg (schemaArg : String) : List String :=
  ((pySplitComma schemaArg).map pyStrip).filter (fun s => s ≠ "")

inductive OutFormat where
  | csv : OutFormat
  | json : OutFormat

/-- The data-producing core of `main`: parse the schema argument, build the
dataset — `[build_row(fake, schema) for _ in range(args.rows)]`, where
`range(n)` iterates `max n 0` times, embedded as `Int.toNat` — and serialize
it in the chosen format.  The returned string is the output file's content. -/
def runOutput (p : Provider) (schemaArg : String) (fmt : OutFormat) (st : Nat)
    (rowsArg : Int) : Except Unit String :=
  match build_dataset p (parseSchemaArg schemaArg) st rowsArg.toNat with
  | .error e => .error e
  | .ok (rows, _) =>
    match fmt with
    | .csv => writeCsv (parseSchemaArg schemaArg) rows
    | .json => .ok (writeJson rows)

/-! ## A CSV reader (RFC-4180 style, `\r\n` terminated), used to state the
round-trip property of the CSV writer. -/

/-- Parse an unquoted field: stop before a delimiter or `\r`. -/
def parseUnquoted : List Char → List Char → String × List Char
  | [], acc => (String.mk acc.reverse, [])
  | c :: cs, acc =>
    if c = ',' ∨ c = '\r' then (String.mk acc.reverse, c :: cs)
    else parseUnquoted cs (c :: acc)

/-- Parse the body of a quoted field (after the opening quote): a doubled
quote is a literal quote, a lone quote closes the field. -/
def parseQuoted : List Char → List Char → String × List Char
  | [], acc => (String.mk acc.reverse, [])
  | c :: cs, acc =>
    if c = '"' then
      match cs with
      | [] => (String.mk acc.reverse, [])
      | c2 :: cs2 =>
        if c2 = '"' then parseQuoted cs2 ('"' :: acc)
        else (String.mk acc.reverse, c2 :: cs2)
    else parseQuoted cs (c :: acc)

def parseField : List Char → String × List Char
  | [] => ("", [])
  | c :: cs => if c = '"' then parseQuoted cs [] else parseUnquoted (c :: cs) []

/-- Parse the comma-separated fields of one record.  The fuel bounds the
number of fields (any value at least the field count gives the answer). -/
def parseRecordAux : Nat → List Char → List String × List Char
  | 0, cs => ([""], cs)
  | fuel + 1, cs =>
    match parseField cs with
    | (f, rest) =>
      match rest with
      | ',' :: cs' =>
        match parseRecordAux fuel cs' with
        | (fs, rest') => (f :: fs, rest')
      | other => ([f], other)

/-- Parse `\r\n`-terminated records.  The fuel bounds the record count. -/
def parseCsvAux : Nat → List Char → List (List String)
  | 0, _ => []
  | fuel + 1, cs =>
    if cs.isEmpty then []
    else
      match parseRecordAux (cs.length + 1) cs with
      | (fs, rest) =>
        match rest with
        | '\r' :: '\n' :: cs' => fs :: parseCsvAux fuel cs'
        | _ => [fs]

def parseCsv (s : String) : List (List String) :=
  parseCsvAux (s.data.length + 1) s.data

theorem parseQuoted_nil (acc : List Char) :
    parseQuoted [] acc = (String.mk acc.reverse, []) := rfl

theorem parseQuoted_cons_ne (c : Char) (cs acc : List Char) (hch : ¬ c = '"') :
    parseQuoted (c :: cs) acc = parseQuoted cs (c :: acc) := by
  rw [parseQuoted.eq_def]
  simp [hch]

theorem parseQuoted_qq (cs acc : List Char) :
    parseQuoted ('"' :: '"' :: cs) acc = parseQuoted cs ('"' :: acc) := by
  rw [parseQuoted.eq_def]
  simp

theorem parseQuoted_q_end (r : Char) (rs acc : List Char) (hr : ¬ r = '"') :
    parseQuoted ('"' :: r :: rs) acc = (String.mk acc.reverse, r :: rs) := by
  rw [parseQuoted.eq_def]
  simp [hr]

theorem parseQuoted_q_nil (acc : List Char) :
    parseQuoted ['"'] acc = (String.mk acc.reverse, []) := by
  rw [parseQuoted.eq_def]
  simp

theorem parseUnquoted_cons (c : Char) (cs acc : List Char) :
    parseUnquoted (c :: cs) acc =
      if c = ',' ∨ c = '\r' then (String.mk acc.reverse, c :: cs)
      else parseUnquoted cs (c :: acc) := rfl

theorem parseField_cons (c : Char) (cs : List Char) :
    parseField (c :: cs) =
      if c = '"' then parseQuoted cs [] else parseUnquoted (c :: cs) [] := rfl

theorem parseQuoted_roundtrip (chars : List Char) (rest : List Char)
    (hrest : rest.head? ≠ some '"') :
    ∀ acc, parseQuoted (doubleQuotes chars ++ ('"' :: rest)) acc =
      (String.mk (acc.reverse ++ chars), rest) := by
  induction chars with
  | nil =>
    intro acc
    simp only [doubleQuotes, List.nil_append]
    cases rest with
    | nil => rw [parseQuoted_q_nil]; simp
    | cons r rs =>
      have hr : ¬ r = '"' := fun h => hrest (by simp [h])
      rw [parseQuoted_q_end r rs acc hr]
      simp
  | cons ch chars ih =>
    intro acc
    by_cases hch : ch = '"'
    · subst hch
      rw [show doubleQuotes ('"' :: chars) = '"' :: '"' :: doubleQuotes chars
        from rfl, List.cons_append, List.cons_append, parseQuoted_qq,
        ih ('"' :: acc)]
      simp
    · rw [show doubleQuotes (ch :: chars) = ch :: doubleQuotes chars by
        simp [doubleQuotes, hch], List.cons_append,
        parseQuoted_cons_ne ch _ acc hch, ih (ch :: acc)]
      simp

theorem parseUnquoted_roundtrip (chars : List Char) (rest : List Char)
    (hchars : ∀ c ∈ chars, ¬ (c = ',' ∨ c = '\r'))
    (hrest : rest = [] ∨ rest.head? = some ',' ∨ rest.head? = some '\r') :
    ∀ acc, parseUnquoted (chars ++ rest) acc =
      (String.mk (acc.reverse ++ chars), rest) := by
  induction chars with
  | nil =>
    intro acc
    cases hrest with
    | inl h => subst h; simp [parseUnquoted]
    | inr h =>
      cases rest with
      | nil => simp [parseUnquoted]
      | cons r rs =>
        have hr : r = ',' ∨ r = '\r' := by
          cases h with
          | inl h1 => exact Or.inl (by simpa using h1)
          | inr h2 => exact Or.inr (by simpa using h2)
        rw [List.nil_append, parseUnquoted_cons, if_pos hr]
        simp
  | cons ch chars ih =>
    intro acc
    have hch : ¬ (ch = ',' ∨ ch = '\r') := hchars ch (by simp)
    rw [List.cons_append, parseUnquoted_cons, if_neg hch,
      ih (fun c hc => hchars c (by simp [hc])) (ch :: acc)]
    simp

theorem parseField_roundtrip (s : String) (rest : List Char)
    (hrest : rest = [] ∨ rest.head? = some ',' ∨ rest.head? = some '\r') :
    parseField ((csvQuoteField s).data ++ rest) = (s, rest) := by
  unfold csvQuoteField
  by_cases hq : needsQuote s = true
  · rw [if_pos hq]
    have hdata : (String.mk ('"' :: (doubleQuotes s.data ++ ['"']))).data ++
        rest = '"' :: (doubleQuotes s.data ++ ('"' :: rest)) := by
      simp
    rw [hdata, parseField_cons, if_pos rfl]
    have hhd : rest.head? ≠ some '"' := by
      cases hrest with
      | inl h => subst h; simp
      | inr h =>
        cases h with
        | inl h1 => rw [h1]; simp
        | inr h2 => rw [h2]; simp
    rw [parseQuoted_roundtrip s.data rest hhd []]
    simp
  · rw [if_neg hq]
    have hq' : needsQuote s = false := by
      cases h : needsQuote s
      · rfl
      · exact absurd h hq
    have hchars : ∀ c ∈ s.data, ¬ (c = ',' ∨ c = '\r') := by
      intro c hc hor
      have hany : s.data.any
          (fun c => c == ',' || c == '"' || c == '\r' || c == '\n') = true := by
        rw [List.any_eq_true]
        refine ⟨c, hc, ?_⟩
        rcases hor with h | h <;> simp [h]
      rw [show s.data.any
          (fun c => c == ',' || c == '"' || c == '\r' || c == '\n') =
          needsQuote s from rfl, hq'] at hany
      cases hany
    have hfirst : ∀ c ∈ s.data, ¬ c = '"' := by
      intro c hc h
      have hany : s.data.any
          (fun c => c == ',' || c == '"' || c == '\r' || c == '\n') = true := by
        rw [List.any_eq_true]
        exact ⟨c, hc, by simp [h]⟩
      rw [show s.data.any
          (fun c => c == ',' || c == '"' || c == '\r' || c == '\n') =
          needsQuote s from rfl, hq'] at hany
      cases hany
    cases hsd : s.data with
    | nil =>
      have hs : s = "" := by
        have h0 := congrArg String.mk hsd
        simpa using h0
      subst hs
      cases hrest with
      | inl h => subst h; rfl
      | inr h =>
        cases rest with
        | nil => rfl
        | cons r rs =>
          have hr : r = ',' ∨ r = '\r' := by
            cases h with
            | inl h1 => exact Or.inl (by simpa using h1)
            | inr h2 => exact Or.inr (by simpa using h2)
          have hrq : ¬ r = '"' := by
            rcases hr with h1 | h1 <;> simp [h1]
          rw [List.nil_append, parseField_cons, if_neg hrq,
            parseUnquoted_cons, if_pos hr]
          rfl
    | cons c cs =>
      have hcq : ¬ c = '"' := hfirst c (by rw [hsd]; simp)
      rw [List.cons_append, parseField_cons, if_neg hcq,
        show (c :: (cs ++ rest)) = ((c :: cs) ++ rest) from rfl,
        parseUnquoted_roundtrip (c :: cs) rest
          (fun x hx => hchars x (by rw [hsd]; exact hx)) hrest []]
      rw [← hsd]
      simp

theorem parseRecordAux_succ (fuel : Nat) (cs : List Char) :
    parseRecordAux (fuel + 1) cs =
      match parseField cs with
      | (f, rest) =>
        match rest with
        | ',' :: cs' =>
          match parseRecordAux fuel cs' with
          | (fs, rest') => (f :: fs, rest')
        | other => ([f], other) := rfl

theorem csvLine_cons_cons (f f2 : String) (fs : List String) :
    csvLine (f :: f2 :: fs) = csvQuoteField f ++ "," ++ csvLine (f2 :: fs) := rfl

theorem parseRecordAux_roundtrip (fields : List String) :
    ∀ (rest : List Char) (fuel : Nat), fields ≠ [] →
    fields.length ≤ fuel →
    (rest = [] ∨ rest.head? = some '\r') →
    parseRecordAux fuel ((csvLine fields).data ++ rest) = (fields, rest) := by
  induction fields with
  | nil => intro rest fuel hne _ _; exact absurd rfl hne
  | cons f fs ih =>
    intro rest fuel _ hfuel hrest
    cases fuel with
    | zero => simp at hfuel
    | succ fuel' =>
      cases fs with
      | nil =>
        rw [show csvLine [f] = csvQuoteField f from rfl, parseRecordAux_succ,
          parseField_roundtrip f rest (hrest.elim Or.inl (fun h => Or.inr (Or.inr h)))]
        cases hrest with
        | inl h => subst h; rfl
        | inr h =>
          cases rest with
          | nil => rfl
          | cons r rs =>
            have hr : r = '\r' := by simpa using h
            subst hr
            rfl
      | cons f2 fs2 =>
        have hdecomp : (csvLine (f :: f2 :: fs2)).data ++ rest =
            (csvQuoteField f).data ++
              (',' :: ((csvLine (f2 :: fs2)).data ++ rest)) := by
          rw [csvLine_cons_cons]
          simp [String.data_append]
        rw [hdecomp, parseRecordAux_succ,
          parseField_roundtrip f (',' :: ((csvLine (f2 :: fs2)).data ++ rest))
            (Or.inr (Or.inl rfl))]
        have hlen : (f2 :: fs2).length ≤ fuel' := by
          simp only [List.length_cons] at hfuel ⊢
          omega
        show (match parseRecordAux fuel' ((csvLine (f2 :: fs2)).data ++ rest) with
              | (fs, rest') => (f :: fs, rest')) = (f :: f2 :: fs2, rest)
        rw [ih rest fuel' (by simp) hlen hrest]

theorem parseCsvAux_succ (fuel : Nat) (cs : List Char) :
    parseCsvAux (fuel + 1) cs =
      if cs.isEmpty then []
      else
        match parseRecordAux (cs.length + 1) cs with
        | (fs, rest) =>
          match rest with
          | '\r' :: '\n' :: cs' => fs :: parseCsvAux fuel cs'
          | _ => [fs] := rfl

/-- A comma-joined line of `n` fields has at least `n - 1` characters. -/
theorem csvLine_length_lb (fields : List String) :
    fields.length ≤ (csvLine fields).data.length + 1 := by
  induction fields with
  | nil => simp
  | cons f fs ih =>
    cases fs with
    | nil => simp
    | cons f2 fs2 =>
      rw [csvLine_cons_cons]
      simp only [String.data_append, List.length_append, List.length_cons]
      simp only [List.length_cons] at ih ⊢
      have : (("," : String)).data.length = 1 := rfl
      omega

/-- Every encoded record (including its `\r\n`) is at least one character,
so the record count is bounded by the document length. -/
theorem encoded_records_length_lb (recs : List (List String)) :
    recs.length ≤
      ((recs.map (fun fs => (csvLine fs).data ++ ['\r', '\n'])).flatten).length := by
  induction recs with
  | nil => simp
  | cons r rs ih =>
    simp only [List.map_cons, List.flatten_cons, List.length_append,
      List.length_cons, List.length_nil]
    omega

theorem parseCsvAux_roundtrip (recs : List (List String)) :
    ∀ fuel : Nat, (∀ fs ∈ recs, fs ≠ []) → recs.length ≤ fuel →
    parseCsvAux fuel
        ((recs.map (fun fs => (csvLine fs).data ++ ['\r', '\n'])).flatten) =
      recs := by
  induction recs with
  | nil =>
    intro fuel _ _
    cases fuel with
    | zero => rfl
    | succ fuel' => rfl
  | cons r rs ih =>
    intro fuel hne hfuel
    cases fuel with
    | zero => simp at hfuel
    | succ fuel' =>
      simp only [List.map_cons, List.flatten_cons, List.append_assoc]
      have hbody : (csvLine r).data ++ (['\r', '\n'] ++
          ((rs.map (fun fs => (csvLine fs).data ++ ['\r', '\n'])).flatten)) =
          (csvLine r).data ++ ('\r' :: '\n' ::
            ((rs.map (fun fs => (csvLine fs).data ++ ['\r', '\n'])).flatten)) := rfl
      rw [hbody, parseCsvAux_succ]
      have hnonempty : ((csvLine r).data ++ ('\r' :: '\n' ::
          ((rs.map (fun fs => (csvLine fs).data ++ ['\r', '\n'])).flatten))).isEmpty
          = false := by
        cases hcl : (csvLine r).data with
        | nil => rfl
        | cons a as => rfl
      rw [hnonempty]
      simp only [Bool.false_eq_true, if_false]
      have hfuelRec : r.length ≤ ((csvLine r).data ++ ('\r' :: '\n' ::
          ((rs.map (fun fs => (csvLine fs).data ++ ['\r', '\n'])).flatten))).length
          + 1 := by
        have h1 := csvLine_length_lb r
        simp only [List.length_append, List.length_cons]
        omega
      rw [parseRecordAux_roundtrip r
        ('\r' :: '\n' :: ((rs.map (fun fs => (csvLine fs).data ++ ['\r', '\n'])).flatten))
        _ (hne r (by simp)) hfuelRec (Or.inr rfl)]
      show r :: parseCsvAux fuel'
          ((rs.map (fun fs => (csvLine fs).data ++ ['\r', '\n'])).flatten) = r :: rs
      rw [ih fuel' (fun fs hfs => hne fs (by simp [hfs]))
        (by simp only [List.length_cons] at hfuel; omega)]

/-- The body the csv writer produces, record by record, when every record's
keys are covered by the field names. -/
theorem writeRows_eq (schema : List String) (rows : List Record)
    (h : rows.all (fun r => r.all (fun kv => schema.contains kv.1)) = true) :
    writeRows schema rows =
      .ok (strConcat (rows.map (fun r =>
        csvLine (schema.map (fun k => encodeCsvValue (dictGet r k))) ++ "\r\n"))) := by
  induction rows with
  | nil => rfl
  | cons r rs ih =>
    simp only [List.all_cons, Bool.and_eq_true] at h
    simp only [writeRows, dictWriterRow, h.1, if_true, List.map_cons]
    rw [ih h.2]
    rfl

theorem strConcat_lines_data (lines : List (List String)) :
    (strConcat (lines.map (fun fs => csvLine fs ++ "\r\n"))).data =
      ((lines.map (fun fs => (csvLine fs).data ++ ['\r', '\n'])).flatten) := by
  induction lines with
  | nil => rfl
  | cons l ls ihl =>
    simp only [List.map_cons, strConcat, String.data_append,
      List.flatten_cons, ihl]

/-- The document the csv writer produces, as the flat character list of its
`\r\n`-terminated lines. -/
theorem writeCsv_data (schema : List String) (rows : List Record)
    (h : rows.all (fun r => r.all (fun kv => schema.contains kv.1)) = true) :
    ∀ out, writeCsv schema rows = .ok out →
    out.data = (((schema :: rows.map (fun r =>
        schema.map (fun k => encodeCsvValue (dictGet r k)))).map
      (fun fs => (csvLine fs).data ++ ['\r', '\n'])).flatten) := by
  intro out hout
  unfold writeCsv at hout
  rw [writeRows_eq schema rows h] at hout
  have hout' : out = csvLine schema ++ "\r\n" ++ strConcat (rows.map (fun r =>
      csvLine (schema.map (fun k => encodeCsvValue (dictGet r k))) ++ "\r\n")) := by
    cases hout
    rfl
  subst hout'
  rw [show rows.map (fun r =>
      csvLine (schema.map (fun k => encodeCsvValue (dictGet r k))) ++ "\r\n") =
      (rows.map (fun r => schema.map (fun k => encodeCsvValue (dictGet r k)))).map
        (fun fs => csvLine fs ++ "\r\n") by rw [List.map_map]; rfl]
  simp only [List.map_cons, List.flatten_cons, String.data_append,
    strConcat_lines_data]

/-- Claim C6: the CSV serialization is the header line — the schema, in
order — followed by one `\r\n`-terminated line per record holding the
record's values in schema order, and null (or missing) values serialize to
the empty field. -/
theorem claim_C6_csv_structure (schema : List String) (rows : List Record)
    (h : rows.all (fun r => r.all (fun kv => schema.contains kv.1)) = true) :
    writeCsv schema rows =
      .ok (csvLine schema ++ "\r\n" ++ strConcat (rows.map (fun r =>
        csvLine (schema.map (fun k => encodeCsvValue (dictGet r k))) ++ "\r\n"))) ∧
    encodeCsvValue (some Value.vnull) = "" ∧ encodeCsvValue none = "" := by
  refine ⟨?_, rfl, rfl⟩
  unfold writeCsv
  rw [writeRows_eq schema rows h]

/-- Witness for C6: a two-column schema with one string and one null cell. -/
theorem claim_C6_witness :
    writeCsv ["a", "b"] [[("a", Value.vstr "x"), ("b", Value.vnull)]] =
      .ok (csvLine ["a", "b"] ++ "\r\n" ++
        strConcat ([[("a", Value.vstr "x"), ("b", Value.vnull)]].map (fun r =>
          csvLine (["a", "b"].map (fun k => encodeCsvValue (dictGet r k))) ++
            "\r\n"))) ∧
    encodeCsvValue (some Value.vnull) = "" ∧ encodeCsvValue none = "" :=
  claim_C6_csv_structure ["a", "b"] [[("a", Value.vstr "x"), ("b", Value.vnull)]]
    rfl

/-- Claim C9: parsing the CSV the writer produced recovers the header — the
schema — and then, per record in order, exactly the in-memory values in
schema order, modulo the null→empty-string cell encoding. -/
theorem claim_C9_csv_roundtrip (schema : List String) (rows : List Record)
    (out : String)
    (h0 : schema ≠ [])
    (h : rows.all (fun r => r.all (fun kv => schema.contains kv.1)) = true)
    (hw : writeCsv schema rows = .ok out) :
    parseCsv out =
      schema :: rows.map (fun r =>
        schema.map (fun k => encodeCsvValue (dictGet r k))) := by
  have hdata := writeCsv_data schema rows h out hw
  unfold parseCsv
  rw [hdata]
  apply parseCsvAux_roundtrip
  · intro fs hfs
    rcases List.mem_cons.mp hfs with hfs1 | hfs2
    · rw [hfs1]; exact h0
    · rcases List.mem_map.mp hfs2 with ⟨r, _, hproj⟩
      intro hnil
      rw [← hproj] at hnil
      exact h0 (List.map_eq_nil_iff.mp hnil)
  · have hlb := encoded_records_length_lb (schema :: rows.map (fun r =>
      schema.map (fun k => encodeCsvValue (dictGet r k))))
    omega

/-- Witness for C9 at a value that needs quoting (a comma and a quote). -/
theorem claim_C9_witness :
    parseCsv "a\r\n\"x,\"\"y\"\r\n" =
      ["a"] :: [[("a", Value.vstr "x,\"y")]].map (fun r =>
        ["a"].map (fun k => encodeCsvValue (dictGet r k))) :=
  claim_C9_csv_roundtrip ["a"] [[("a", Value.vstr "x,\"y")]]
    "a\r\n\"x,\"\"y\"\r\n" (by simp) rfl rfl

/-- The key order of a record built by the row builder: the trimmed schema
names, first occurrence first. -/
theorem build_row_key_order (p : Provider) (schema : List String) (st : Nat)
    (r : Record) (st' : Nat) (h : build_row p schema st = .ok (r, st')) :
    r.map Prod.fst = dedupFirst (schema.map pyStrip) := by
  unfold build_row at h
  cases hg : get_field_generators p with
  | error e =>
    rw [hg] at h
    exact Except.noConfusion h
  | ok gens =>
    rw [hg] at h
    have h : buildRowAux p gens schema [] st = .ok (r, st') := h
    rw [buildRowAux_eq_rowPairs] at h
    cases hp : rowPairs p gens schema st with
    | error e =>
      rw [hp] at h
      exact Except.noConfusion h
    | ok pss =>
      obtain ⟨ps, st2⟩ := pss
      rw [hp] at h
      simp only [Except.ok.injEq, Prod.mk.injEq] at h
      rw [← h.1, keys_foldl_order, rowPairs_keys p gens schema st ps st2 hp]
      rfl

theorem jsonEscapeChar_safe (c : Char) (h1 : ¬ c = '"') (h2 : ¬ c = '\\')
    (h3 : 32 ≤ c.toNat) : jsonEscapeChar c = String.singleton c := by
  unfold jsonEscapeChar
  rw [if_neg h1, if_neg h2, if_neg (Nat.not_lt.mpr h3)]

theorem jsonEscape_chars (l : List Char)
    (h : ∀ ch ∈ l, ¬ ch = '"' ∧ ¬ ch = '\\' ∧ 32 ≤ ch.toNat) :
    strConcat (l.map jsonEscapeChar) = String.mk l := by
  induction l with
  | nil => rfl
  | cons c cs ih =>
    obtain ⟨h1, h2, h3⟩ := h c (by simp)
    simp only [List.map_cons, strConcat]
    rw [jsonEscapeChar_safe c h1 h2 h3, ih (fun ch hch => h ch (by simp [hch]))]
    apply String.ext
    simp [String.data_append]

theorem jsonEscape_safe (s : String)
    (h : ∀ ch ∈ s.data, ¬ ch = '"' ∧ ¬ ch = '\\' ∧ 32 ≤ ch.toNat) :
    jsonEscape s = s := by
  unfold jsonEscape
  rw [jsonEscape_chars s.data h]

/-- Claim C7: the JSON serialization is an array of one object per record in
dataset order; a built record's keys — hence the rendered object's member
order — are the trimmed schema names in first-occurrence order; null values
render as JSON `null`; and the escaper leaves every character that needs no
escape, in particular every non-ASCII character, verbatim. -/
theorem claim_C7_json_structure (p : Provider) (schema : List String)
    (st : Nat) (r : Record) (st' : Nat) (r0 : Record) (rows : List Record)
    (s : String) (c : Char)
    (hb : build_row p schema st = .ok (r, st'))
    (hsafe : ∀ ch ∈ s.data, ¬ ch = '"' ∧ ¬ ch = '\\' ∧ 32 ≤ ch.toNat)
    (hc : 128 ≤ c.toNat) :
    writeJson (r0 :: rows) = "[\n" ++ renderRows (r0 :: rows) ++ "\n]" ∧
    r.map Prod.fst = dedupFirst (schema.map pyStrip) ∧
    jsonValue Value.vnull = "null" ∧
    jsonEscape s = s ∧
    jsonEscapeChar c = String.singleton c := by
  refine ⟨rfl, build_row_key_order p schema st r st' hb, rfl,
    jsonEscape_safe s hsafe, ?_⟩
  have h1 : ¬ c = '"' := by
    intro hcq
    rw [hcq] at hc
    simp at hc
  have h2 : ¬ c = '\\' := by
    intro hcq
    rw [hcq] at hc
    simp at hc
  exact jsonEscapeChar_safe c h1 h2 (by omega)

/-- Witness for C7: a duplicated schema name, a non-ASCII string and a
non-ASCII character. -/
theorem claim_C7_witness :
    writeJson ([("a", Value.vnull)] :: []) =
      "[\n" ++ renderRows ([("a", Value.vnull)] :: []) ++ "\n]" ∧
    ([("nome", Value.vstr "name1")] : Record).map Prod.fst =
      dedupFirst (["nome", " nome "].map pyStrip) ∧
    jsonValue Value.vnull = "null" ∧
    jsonEscape "ação é" = "ação é" ∧
    jsonEscapeChar 'é' = String.singleton 'é' :=
  claim_C7_json_structure pStd ["nome", " nome "] 0
    [("nome", Value.vstr "name1")] 2 [("a", Value.vnull)] [] "ação é" 'é'
    rfl (by decide) (by decide)

/-- Dataset generation is strictly sequential: building `m + n` rows is
building `m` rows and then continuing from the state they left behind. -/
theorem build_dataset_add (p : Provider) (schema : List String) (st m n : Nat) :
    build_dataset p schema st (m + n) =
      (match build_dataset p schema st m with
       | .error e => .error e
       | .ok (rs1, stm) =>
         match build_dataset p schema stm n with
         | .error e => .error e
         | .ok (rs2, stf) => .ok (rs1 ++ rs2, stf)) := by
  induction m generalizing st with
  | zero =>
    rw [Nat.zero_add]
    show build_dataset p schema st n =
      (match build_dataset p schema st n with
       | Except.error e => Except.error e
       | Except.ok (rs2, stf) => Except.ok ([] ++ rs2, stf))
    cases hd : build_dataset p schema st n with
    | error e => rfl
    | ok pr =>
      obtain ⟨rs, stf⟩ := pr
      simp
  | succ k ih =>
    have h1 : (k + 1) + n = (k + n) + 1 := by omega
    rw [h1]
    show (match build_row p schema st with
      | Except.error e => Except.error e
      | Except.ok (r, st1) =>
        match build_dataset p schema st1 (k + n) with
        | Except.error e => Except.error e
        | Except.ok (rs, st2) => Except.ok (r :: rs, st2)) = _
    cases hbr : build_row p schema st with
    | error e => simp [build_dataset, hbr]
    | ok rst =>
      obtain ⟨r, st1⟩ := rst
      simp only [build_dataset, hbr]
      rw [ih st1]
      cases hm : build_dataset p schema st1 k with
      | error e => rfl
      | ok pr =>
        obtain ⟨rs1, stm⟩ := pr
        cases hn : build_dataset p schema stm n with
        | error e => simp [hn]
        | ok pr2 =>
          obtain ⟨rs2, stf⟩ := pr2
          simp [hn]

/-- Claim C8: generation is a deterministic function of the seeded provider
state, the schema and the row count: two providers that expose the same
capabilities and sample identically produce byte-identical serialized output
from the same starting state, and dataset generation is strictly sequential
(so a fixed seed fixes the whole run). -/
theorem claim_C8_determinism (p q : Provider) (schemaArg : String)
    (fmt : OutFormat) (st : Nat) (rowsArg : Int) (schema2 : List String)
    (st2 m n : Nat)
    (hhas : ∀ c, p.has c = q.has c)
    (hsample : ∀ c s, p.sample c s = q.sample c s) :
    runOutput p schemaArg fmt st rowsArg = runOutput q schemaArg fmt st rowsArg ∧
    build_dataset p schema2 st2 (m + n) =
      (match build_dataset p schema2 st2 m with
       | .error e => .error e
       | .ok (rs1, stm) =>
         match build_dataset p schema2 stm n with
         | .error e => .error e
         | .ok (rs2, stf) => .ok (rs1 ++ rs2, stf)) := by
  have hpq : p = q := by
    cases p
    cases q
    simp only [Provider.mk.injEq]
    exact ⟨funext hhas, funext (fun c => funext (fun s => hsample c s))⟩
  exact ⟨by rw [hpq], build_dataset_add p schema2 st2 m n⟩

/-- A syntactically different provider with the same observable behavior as
`pStd`. -/
def pTwin : Provider :=
  { has := fun c => stdCaps.contains c && true,
    sample := fun c st => Value.vstr (c ++ toString (st + 0)) }

/-- Witness for C8: `pStd` and `pTwin` are distinct definitions with equal
behavior, and a concrete 1+2-row split. -/
theorem claim_C8_witness :
    runOutput pStd "nome,email" OutFormat.csv 0 2 =
      runOutput pTwin "nome,email" OutFormat.csv 0 2 ∧
    build_dataset pStd ["nome"] 5 (1 + 2) =
      (match build_dataset pStd ["nome"] 5 1 with
       | .error e => .error e
       | .ok (rs1, stm) =>
         match build_dataset pStd ["nome"] stm 2 with
         | .error e => .error e
         | .ok (rs2, stf) => .ok (rs1 ++ rs2, stf)) :=
  claim_C8_determinism pStd pTwin "nome,email" OutFormat.csv 0 2 ["nome"] 5 1 2
    (fun c => by simp [pStd, pTwin])
    (fun c s => by simp [pStd, pTwin])

/-- Claim C10: a negative requested row count is not rejected: `range(n)` is
then empty, so the run behaves exactly as `rows = 0`, writing a header-only
CSV or an empty JSON array. -/
theorem claim_C10_negative_rows (p : Provider) (schemaArg : String) (st : Nat)
    (rowsArg : Int) (hneg : rowsArg < 0) :
    runOutput p schemaArg OutFormat.csv st rowsArg =
      runOutput p schemaArg OutFormat.csv st 0 ∧
    runOutput p schemaArg OutFormat.json st rowsArg =
      runOutput p schemaArg OutFormat.json st 0 ∧
    runOutput p schemaArg OutFormat.csv st rowsArg =
      .ok (csvLine (parseSchemaArg schemaArg) ++ "\r\n") ∧
    runOutput p schemaArg OutFormat.json st rowsArg = .ok "[]" := by
  have h0 : rowsArg.toNat = 0 := Int.toNat_of_nonpos (le_of_lt hneg)
  have hrwc : runOutput p schemaArg OutFormat.csv st rowsArg =
      runOutput p schemaArg OutFormat.csv st 0 := by
    unfold runOutput
    rw [h0]
    rfl
  have hrwj : runOutput p schemaArg OutFormat.json st rowsArg =
      runOutput p schemaArg OutFormat.json st 0 := by
    unfold runOutput
    rw [h0]
    rfl
  have hcsv0 : runOutput p schemaArg OutFormat.csv st 0 =
      .ok (csvLine (parseSchemaArg schemaArg) ++ "\r\n" ++ "") := rfl
  have hjson0 : runOutput p schemaArg OutFormat.json st 0 = .ok "[]" := rfl
  refine ⟨hrwc, hrwj, ?_, ?_⟩
  · rw [hrwc, hcsv0, String.append_empty]
  · rw [hrwj, hjson0]

/-- Witness for C10 at `rows = -5`. -/
theorem claim_C10_witness :
    runOutput pStd "nome,email" OutFormat.csv 0 (-5) =
      runOutput pStd "nome,email" OutFormat.csv 0 0 ∧
    runOutput pStd "nome,email" OutFormat.json 0 (-5) =
      runOutput pStd "nome,email" OutFormat.json 0 0 ∧
    runOutput pStd "nome,email" OutFormat.csv 0 (-5) =
      .ok (csvLine (parseSchemaArg "nome,email") ++ "\r\n") ∧
    runOutput pStd "nome,email" OutFormat.json 0 (-5) = .ok "[]" :=
  claim_C10_negative_rows pStd "nome,email" 0 (-5) (by decide)

end FakeData
